import Mathlib

/-!
Verification development for the backup system implemented in
src/Проект/Пример.py (class BackupSystem).

Shallow embedding conventions:
- Filesystem paths are lists of path components (abbrev Path).
- File contents are byte lists (abbrev Bytes).
- The filesystem and clock are an oracle (structure Env): Env.walk models
  the flattened enumeration produced by os.walk plus os.path.join,
  Env.readFile models opening a file for reading (none = OSError),
  an FSFile.mtime of none models os.path.getmtime raising OSError.
- Side effects are recorded as an explicit event trace (inductive Event).
- A Python exception propagating out of a method is Outcome.raised.
-/

set_option autoImplicit false

namespace BackupSystem

abbrev Path := List String

abbrev Bytes := List Nat

/-- Result of one flattened os.walk entry: the joined file path and the
result of os.path.getmtime on it (none models the call raising OSError). -/
structure FSFile where
  path : Path
  mtime : Option Int
deriving DecidableEq, Repr

/-- Modelled from the spec: the external library cryptography.fernet.Fernet
(not part of this repository) provides authenticated symmetric encryption.
A token abstractly records the key that produced it and the payload;
decryption with the producing key recovers the payload exactly, decryption
with any other key fails. -/
structure FernetToken (α : Type) where
  keyId : Nat
  payload : α
deriving DecidableEq, Repr

/-- Modelled from the spec: Fernet.encrypt. -/
def fernetEncrypt {α : Type} (key : Nat) (x : α) : FernetToken α :=
  { keyId := key, payload := x }

/-- Modelled from the spec: Fernet.decrypt; none models InvalidToken. -/
def fernetDecrypt {α : Type} (key : Nat) (t : FernetToken α) : Option α :=
  if t.keyId = key then some t.payload else none

/-- Oracle for the filesystem and the clock, fixed for one method call.
The field key models self.key generated once in BackupSystem.init;
nowLabel models datetime.now().strftime taken at the start of a backup;
nowTime models the time.time() call evaluated when building the
last_backup marker, after create_archive has returned. -/
structure Env where
  key : Nat
  walk : Path → List FSFile
  readFile : Path → Option Bytes
  nowLabel : String
  nowTime : Int

/-- Marker dictionary stored in config under last_backup. -/
structure Marker where
  type : String
  time : Int
  files_count : Nat
deriving DecidableEq, Repr

/-- Entry dictionary appended to config under backup_history. -/
structure HistoryEntry where
  type : String
  time : String
  path : Path
  files_count : Option Nat
deriving DecidableEq, Repr

/-- In-memory configuration dictionary self.config. -/
structure Config where
  source_dirs : List Path
  backup_dir : Path
  last_backup : Option Marker
  backup_history : List HistoryEntry
deriving DecidableEq, Repr

/-- Observable side effects of a method call, in program order. -/
inductive Event where
  | makedirs : Path → Event
  | zipOpen : Path → Event
  | encryptEv : Event
  | fileWrite : Path → Event
  | remove : Path → Event
  | readClock : Int → Event
  | configWrite : Path → Event
  | rename : Path → Path → Event
deriving DecidableEq, Repr

/-- Return value of a backup method: ok r models a normal return
(r = some backup_path or r = none for the no-changes return None),
raised models a propagating Python exception. -/
inductive Outcome where
  | ok : Option Path → Outcome
  | raised : Outcome
deriving DecidableEq, Repr

/-- Path of self.config_file, fixed in BackupSystem.init. -/
def configFilePath : Path := ["backup_config.json"]

/-- save_config opens self.config_file for writing and dumps the whole
configuration into it in place; its only effect is that single write. -/
def save_config (_cfg : Config) : List Event :=
  [Event.configWrite configFilePath]

/-- Flattened enumeration over the configured source directories, in
configuration order, as the nested os.walk loops produce it. -/
def walkAll (walk : Path → List FSFile) : List Path → List FSFile
  | [] => []
  | d :: ds => walk d ++ walkAll walk ds

/-- Condition last_backup_time is None or mtime greater than
last_backup_time from get_changed_files. -/
def isChanged (last : Option Int) (mtime : Int) : Bool :=
  match last with
  | none => true
  | some t => decide (t < mtime)

/-- Body of the get_changed_files loop: stat each enumerated file in order;
a failing stat (mtime = none) raises and aborts the whole walk, otherwise
the file is kept exactly when isChanged holds. -/
def changedFilter (last : Option Int) : List FSFile → Except Unit (List Path)
  | [] => Except.ok []
  | f :: fs =>
    match f.mtime with
    | none => Except.error ()
    | some m =>
      match changedFilter last fs with
      | Except.error e => Except.error e
      | Except.ok r => Except.ok (if isChanged last m then f.path :: r else r)

/-- BackupSystem.get_changed_files. -/
def get_changed_files (env : Env) (dirs : List Path) (last : Option Int) :
    Except Unit (List Path) :=
  changedFilter last (walkAll env.walk dirs)

/-- Archive content as zipfile records it: the member names (arcnames) with
the bytes stored for them, in insertion order. -/
abbrev ZipArchive := List (Path × Bytes)

/-- Appending the literal suffix .temp to the final path component, as
archive_path + quoted .temp does on the path string. -/
def tempName : Path → Path
  | [] => [".temp"]
  | [x] => [x ++ ".temp"]
  | x :: y :: xs => x :: tempName (y :: xs)

/-- Longest common prefix of two component lists. -/
def commonPrefix2 : Path → Path → Path
  | a :: as, b :: bs => if a = b then a :: commonPrefix2 as bs else []
  | _, _ => []

/-- os.path.commonpath over component paths: the longest common prefix of
all the given paths (assuming clean relative components, as the walk
produces). Python raises ValueError on an empty sequence; create_archive
only evaluates it inside the per-file loop, so the empty case is never
reached and its value here is irrelevant. -/
def commonpath : List Path → Path
  | [] => []
  | p :: ps => List.foldl commonPrefix2 p ps

/-- os.path.relpath p base in the only situation create_archive uses it:
base is a common prefix of p. Dropping the prefix leaves the relative
components; when they run out (p = base) Python returns the single
component dot. -/
def relpathFrom (base p : Path) : Path :=
  match p.drop base.length with
  | [] => ["."]
  | r => r

/-- Loop body of create_archive: for each file in order, compute its
arcname relative to base and read it; the first unreadable file raises
(none), aborting archive construction. -/
def buildEntriesGo (readFile : Path → Option Bytes) (base : Path) :
    List Path → Option ZipArchive
  | [] => some []
  | f :: fs =>
    match readFile f with
    | none => none
    | some c => (buildEntriesGo readFile base fs).map
        (fun r => (relpathFrom base f, c) :: r)

/-- Entries of the temporary zip produced by create_archive, with base as
in the source: os.path.commonpath of the whole file list. -/
def buildEntries (readFile : Path → Option Bytes) (file_list : List Path) :
    Option ZipArchive :=
  buildEntriesGo readFile (commonpath file_list) file_list

/-- BackupSystem.create_archive: write the temporary zip, then on success
read it back, encrypt, write the encrypted artifact and remove the
temporary file. The returned token is the artifact content; none means the
zip loop raised on an unreadable file and the exception propagated. -/
def create_archive (key : Nat) (readFile : Path → Option Bytes)
    (archive_path : Path) (file_list : List Path) :
    List Event × Option (FernetToken ZipArchive) :=
  match buildEntries readFile file_list with
  | none => ([Event.zipOpen (tempName archive_path)], none)
  | some entries =>
      ([Event.zipOpen (tempName archive_path), Event.encryptEv,
        Event.fileWrite archive_path, Event.remove (tempName archive_path)],
       some (fernetEncrypt key entries))

/-- Artifact path of a full backup for the label the clock handed out. -/
def archiveNameFull (env : Env) (cfg : Config) : Path :=
  cfg.backup_dir ++ ["тест_full_" ++ env.nowLabel ++ ".zip"]

/-- Artifact path of an incremental backup. -/
def archiveNameInc (env : Env) (cfg : Config) : Path :=
  cfg.backup_dir ++ ["тест_inc_" ++ env.nowLabel ++ ".zip"]

/-- BackupSystem.full_backup. -/
def full_backup (env : Env) (cfg : Config) : Config × Outcome × List Event :=
  let backup_path := archiveNameFull env cfg
  let all_files := (walkAll env.walk cfg.source_dirs).map FSFile.path
  match create_archive env.key env.readFile backup_path all_files with
  | (tr, none) => (cfg, Outcome.raised, Event.makedirs cfg.backup_dir :: tr)
  | (tr, some _) =>
      let cfg1 := { cfg with
        last_backup := some
          { type := "full", time := env.nowTime,
            files_count := all_files.length },
        backup_history := cfg.backup_history ++
          [{ type := "full", time := env.nowLabel, path := backup_path,
             files_count := none }] }
      (cfg1, Outcome.ok (some backup_path),
        Event.makedirs cfg.backup_dir ::
          tr ++ Event.readClock env.nowTime :: save_config cfg1)

/-- BackupSystem.incremental_backup. -/
def incremental_backup (env : Env) (cfg : Config) :
    Config × Outcome × List Event :=
  match cfg.last_backup with
  | none => full_backup env cfg
  | some marker =>
    match get_changed_files env cfg.source_dirs (some marker.time) with
    | Except.error _ => (cfg, Outcome.raised, [])
    | Except.ok [] => (cfg, Outcome.ok none, [])
    | Except.ok (f :: fs) =>
      let changed := f :: fs
      let backup_path := archiveNameInc env cfg
      match create_archive env.key env.readFile backup_path changed with
      | (tr, none) => (cfg, Outcome.raised, tr)
      | (tr, some _) =>
        let cfg1 := { cfg with
          last_backup := some
            { type := "incremental", time := env.nowTime,
              files_count := changed.length },
          backup_history := cfg.backup_history ++
            [{ type := "incremental", time := env.nowLabel,
               path := backup_path, files_count := some changed.length }] }
        (cfg1, Outcome.ok (some backup_path),
          tr ++ Event.readClock env.nowTime :: save_config cfg1)

/-- Member-name sanitisation of ZipFile.extractall (CPython
extract-member): path parts that are empty, dot or dot-dot are dropped
before joining onto the target directory. -/
def sanitize (arc : Path) : Path :=
  arc.filter (fun x => decide (x ≠ "" ∧ x ≠ "." ∧ x ≠ ".."))

/-- Extraction loop of ZipFile.extractall into restore_dir: each member is
written to restore_dir joined with its sanitised name; a member whose
sanitised name is empty makes the target the restore directory itself and
the open for writing raises IsADirectoryError, aborting extraction (false)
with the earlier writes kept. -/
def extractEntries (restore_dir : Path) :
    ZipArchive → List (Path × Bytes) × Bool
  | [] => ([], true)
  | (arc, c) :: rest =>
    match sanitize arc with
    | [] => ([], false)
    | s =>
      match extractEntries restore_dir rest with
      | (ws, ok) => ((restore_dir ++ s, c) :: ws, ok)

/-- BackupSystem.restore_backup on an artifact token: decrypt (false with
no writes on InvalidToken), then extract the zip members into restore_dir.
The returned list holds the files written with their contents; the flag is
false when an exception propagated. -/
def restore_backup (key : Nat) (token : FernetToken ZipArchive)
    (restore_dir : Path) : List (Path × Bytes) × Bool :=
  match fernetDecrypt key token with
  | none => ([], false)
  | some entries => extractEntries restore_dir entries

/-- Modelled from the spec: the required atomic-save strategy for the
configuration document — the document is written to a temporary location
(the live configuration file is never opened for writing in place) and then
renamed into place. -/
def specAtomicSave (tr : List Event) : Prop :=
  (∀ p, Event.configWrite p ∈ tr → p ≠ configFilePath) ∧
  ∃ tmp, Event.rename tmp configFilePath ∈ tr

/-- Change condition lifted to the result of a stat: a file whose stat
raised is never selected (the raise happens first in the loop). -/
def isChangedOpt (last : Option Int) : Option Int → Bool
  | some m => isChanged last m
  | none => false

/-- Test fixture: a source tree with two readable files and a fixed clock. -/
def testEnv : Env where
  key := 7
  walk := fun d =>
    if d = ["katyrov"] then
      [{ path := ["katyrov", "a.txt"], mtime := some 10 },
       { path := ["katyrov", "b.txt"], mtime := some 120 }]
    else []
  readFile := fun p =>
    if p = ["katyrov", "a.txt"] then some [49]
    else if p = ["katyrov", "b.txt"] then some [50]
    else none
  nowLabel := "20260101_000000"
  nowTime := 200

/-- Test fixture: fresh configuration, no marker. -/
def testCfgNoMarker : Config where
  source_dirs := [["katyrov"]]
  backup_dir := ["backups"]
  last_backup := none
  backup_history := []

/-- Test fixture: a marker newer than both test files. -/
def testMarker : Marker where
  type := "full"
  time := 150
  files_count := 2

/-- Test fixture: configuration carrying testMarker. -/
def testCfgMarker : Config :=
  { testCfgNoMarker with last_backup := some testMarker }

/-- Test fixture: a walk whose only entry fails to stat (vanished file or
broken symlink: os.path.getmtime raises). -/
def brokenEnv : Env where
  key := 0
  walk := fun d =>
    if d = ["d"] then [{ path := ["d", "ghost.txt"], mtime := none }] else []
  readFile := fun _ => none
  nowLabel := "x"
  nowTime := 0

/-- Test fixture: configuration over the broken tree. -/
def brokenCfg : Config where
  source_dirs := [["d"]]
  backup_dir := ["b"]
  last_backup := none
  backup_history := []

theorem changedFilter_ok_eq (last : Option Int) :
    ∀ {fs : List FSFile} {r : List Path}, changedFilter last fs = Except.ok r →
      r = (fs.filter fun f => isChangedOpt last f.mtime).map FSFile.path := by
  intro fs
  induction fs with
  | nil =>
    intro r h
    simp only [changedFilter, Except.ok.injEq] at h
    simp [h.symm]
  | cons f fs ih =>
    intro r h
    cases hm : f.mtime with
    | none =>
      simp only [changedFilter, hm] at h
      exact Except.noConfusion h
    | some m =>
      simp only [changedFilter, hm] at h
      cases hc : changedFilter last fs with
      | error e => rw [hc] at h; exact Except.noConfusion h
      | ok r0 =>
        rw [hc] at h
        injection h with h
        have h0 := ih hc
        subst h0
        subst h
        simp only [List.filter_cons, hm, isChangedOpt]
        cases hch : isChanged last m with
        | true => simp [hch]
        | false => simp [hch]

theorem changedFilter_ok_of_all (last : Option Int) :
    ∀ {fs : List FSFile}, (∀ f ∈ fs, f.mtime ≠ none) →
      ∃ r, changedFilter last fs = Except.ok r := by
  intro fs
  induction fs with
  | nil => intro _; exact ⟨[], rfl⟩
  | cons f fs ih =>
    intro hall
    cases hm : f.mtime with
    | none => exact absurd hm (hall f (List.mem_cons_self f fs))
    | some m =>
      obtain ⟨r0, hr0⟩ := ih fun g hg => hall g (List.mem_cons_of_mem f hg)
      refine ⟨if isChanged last m then f.path :: r0 else r0, ?_⟩
      simp only [changedFilter, hm, hr0]

theorem changedFilter_error_iff (last : Option Int) :
    ∀ fs : List FSFile,
      changedFilter last fs = Except.error () ↔ ∃ f ∈ fs, f.mtime = none := by
  intro fs
  induction fs with
  | nil => simp [changedFilter]
  | cons f fs ih =>
    cases hm : f.mtime with
    | none =>
      simp only [changedFilter, hm]
      exact ⟨fun _ => ⟨f, List.mem_cons_self f fs, hm⟩, fun _ => trivial⟩
    | some m =>
      simp only [changedFilter, hm]
      cases hc : changedFilter last fs with
      | error e =>
        constructor
        · intro _
          obtain ⟨g, hg, hgm⟩ := ih.mp (by rw [hc])
          exact ⟨g, List.mem_cons_of_mem f hg, hgm⟩
        · intro _; rfl
      | ok r0 =>
        constructor
        · intro h; exact Except.noConfusion h
        · rintro ⟨g, hg, hgm⟩
          rcases List.mem_cons.mp hg with hgf | hgt
          · subst hgf; rw [hm] at hgm; exact Option.noConfusion hgm
          · have herr : changedFilter last fs = Except.error () :=
              ih.mpr ⟨g, hgt, hgm⟩
            rw [hc] at herr
            exact Except.noConfusion herr

/-- Claim C2: a file encountered during change detection is included in the
changed set exactly when the since argument is None or the file's
last-modified timestamp is strictly greater than since; equality is
excluded and since = None includes every file. -/
theorem changed_iff_strictly_newer (env : Env) (dirs : List Path)
    (last : Option Int)
    (hall : ∀ f ∈ walkAll env.walk dirs, f.mtime ≠ none)
    (hnd : ((walkAll env.walk dirs).map FSFile.path).Nodup) :
    ∃ r, get_changed_files env dirs last = Except.ok r ∧
      ∀ f ∈ walkAll env.walk dirs,
        (f.path ∈ r ↔
          last = none ∨ ∃ t m, last = some t ∧ f.mtime = some m ∧ t < m) := by
  obtain ⟨r, hr⟩ := changedFilter_ok_of_all last hall
  refine ⟨r, hr, ?_⟩
  intro f hf
  have hreq := changedFilter_ok_eq last hr
  subst hreq
  constructor
  · intro hmem
    simp only [List.mem_map, List.mem_filter] at hmem
    obtain ⟨g, ⟨hgmem, hgch⟩, hgp⟩ := hmem
    have hfg : g = f := List.inj_on_of_nodup_map hnd hgmem hf hgp
    rw [hfg] at hgch
    cases hm : f.mtime with
    | none =>
      rw [hm] at hgch
      exact absurd hgch (by simp [isChangedOpt])
    | some m =>
      rw [hm] at hgch
      cases last with
      | none => exact Or.inl rfl
      | some t =>
        refine Or.inr ⟨t, m, rfl, rfl, ?_⟩
        simpa [isChangedOpt, isChanged] using hgch
  · intro hcond
    have hch : isChangedOpt last f.mtime = true := by
      rcases hcond with hnone | ⟨t, m, hlt, hm, htm⟩
      · subst hnone
        cases hm : f.mtime with
        | none => exact absurd hm (hall f hf)
        | some m => simp [isChangedOpt, isChanged]
      · subst hlt; rw [hm]; simpa [isChangedOpt, isChanged] using htm
    exact List.mem_map.mpr ⟨f, List.mem_filter.mpr ⟨hf, hch⟩, rfl⟩

/-- Witness for C2 at the test fixture, with since = 10 sitting exactly on
the modification time of the first file. -/
theorem changed_iff_strictly_newer_witness :
    (∀ f ∈ walkAll testEnv.walk [["katyrov"]], f.mtime ≠ none) ∧
    ((walkAll testEnv.walk [["katyrov"]]).map FSFile.path).Nodup ∧
    ∃ r, get_changed_files testEnv [["katyrov"]] (some 10) = Except.ok r ∧
      ∀ f ∈ walkAll testEnv.walk [["katyrov"]],
        (f.path ∈ r ↔
          (some 10 : Option Int) = none ∨
            ∃ t m, (some 10 : Option Int) = some t ∧ f.mtime = some m ∧ t < m) :=
  ⟨by decide, by decide,
    changed_iff_strictly_newer testEnv [["katyrov"]] (some 10)
      (by decide) (by decide)⟩

/-- Claim C7 counterexample: a source tree containing one entry whose stat
fails does not yield the set of readable changed files — the enumeration
raises instead of returning any result. -/
theorem unreadable_file_aborts_walk :
    get_changed_files brokenEnv [["d"]] none = Except.error () := rfl

/-- Claim C7 amended: change detection raises exactly when some enumerated
file fails to stat; with every entry readable the walk returns normally. -/
theorem get_changed_files_error_iff (env : Env) (dirs : List Path)
    (last : Option Int) :
    get_changed_files env dirs last = Except.error () ↔
      ∃ f ∈ walkAll env.walk dirs, f.mtime = none :=
  changedFilter_error_iff last (walkAll env.walk dirs)

/-- Claim C1: for every byte string x, including the empty string, decrypting
the encryption of x with the same in-process key returns exactly x. -/
theorem fernet_round_trip (key : Nat) (x : Bytes) :
    fernetDecrypt key (fernetEncrypt key x) = some x := by
  simp [fernetDecrypt, fernetEncrypt]

/-- Claim C3: with an existing marker and an empty changed set, the
incremental backup mutates nothing, emits no filesystem effect at all, and
returns the None signal, which differs from every completed-backup return
value. -/
theorem incremental_noop_on_no_changes (env : Env) (cfg : Config)
    (marker : Marker)
    (h1 : cfg.last_backup = some marker)
    (h2 : get_changed_files env cfg.source_dirs (some marker.time) =
      Except.ok []) :
    incremental_backup env cfg = (cfg, Outcome.ok none, []) ∧
    ∀ p : Path, Outcome.ok none ≠ Outcome.ok (some p) := by
  constructor
  · unfold incremental_backup
    simp only [h1, h2]
  · intro p h
    injection h with h
    exact Option.noConfusion h

/-- Witness for C3: both test files predate the marker, so the changed set
is empty and the call is a pure no-op. -/
theorem incremental_noop_on_no_changes_witness :
    testCfgMarker.last_backup = some testMarker ∧
    get_changed_files testEnv testCfgMarker.source_dirs
      (some testMarker.time) = Except.ok [] ∧
    incremental_backup testEnv testCfgMarker =
      (testCfgMarker, Outcome.ok none, []) :=
  ⟨rfl, rfl,
    (incremental_noop_on_no_changes testEnv testCfgMarker testMarker
      rfl rfl).1⟩

/-- Claim C4: with no last_backup marker, incremental_backup delegates to
full_backup, returning exactly what a direct call of full_backup returns
(same enumeration, same result, same effects). -/
theorem incremental_delegates_to_full (env : Env) (cfg : Config)
    (h : cfg.last_backup = none) :
    incremental_backup env cfg = full_backup env cfg := by
  unfold incremental_backup
  rw [h]

/-- Witness for C4 at the fresh test configuration. -/
theorem incremental_delegates_to_full_witness :
    testCfgNoMarker.last_backup = none ∧
    incremental_backup testEnv testCfgNoMarker =
      full_backup testEnv testCfgNoMarker :=
  ⟨rfl, incremental_delegates_to_full testEnv testCfgNoMarker rfl⟩

/-- Claim C6 counterexample: the save of the configuration document is not
atomic — it opens the live configuration file for writing in place and
performs no rename from a temporary location. -/
theorem save_config_not_atomic :
    ¬ specAtomicSave (save_config testCfgNoMarker) := by
  rintro ⟨h1, -⟩
  exact h1 configFilePath (by simp [save_config]) rfl

/-- Claim C6 amended: every save of the configuration rewrites the live
configuration file in place with a single write; no temporary file is
written and no rename is performed. -/
theorem save_config_in_place (cfg : Config) :
    save_config cfg = [Event.configWrite configFilePath] ∧
    ∀ src dst, Event.rename src dst ∉ save_config cfg :=
  ⟨rfl, by simp [save_config]⟩

/-- Test fixture for C5: a single readable input file with known bytes. -/
def singleFile : Path := ["katyrov", "тест1.txt"]

/-- Test fixture for C5: read oracle exposing only singleFile. -/
def singleReadFile : Path → Option Bytes := fun p =>
  if p = singleFile then some [49, 50, 51] else none

/-- Claim C5 evaluated at the failing input: archiving the one-element file
list stores the file under the member name dot (os.path.commonpath of a
singleton is the file path itself, so os.path.relpath yields dot), and
restoring that artifact writes no file and raises instead of reproducing
the file. -/
theorem single_file_archive_restore_fails :
    (create_archive 7 singleReadFile ["backups", "тест_full_X.zip"]
        [singleFile]).2 =
      some (fernetEncrypt 7 [(["."], [49, 50, 51])]) ∧
    restore_backup 7 (fernetEncrypt 7 [(["."], [49, 50, 51])])
        ["restored"] = ([], false) :=
  ⟨rfl, rfl⟩

theorem buildEntriesGo_eq_none (readFile : Path → Option Bytes)
    (base : Path) {f : Path} :
    ∀ {l : List Path}, f ∈ l → readFile f = none →
      buildEntriesGo readFile base l = none := by
  intro l
  induction l with
  | nil => intro h; exact absurd h (List.not_mem_nil f)
  | cons g gs ih =>
    intro hmem hrf
    rcases List.mem_cons.mp hmem with hfg | hft
    · subst hfg
      simp only [buildEntriesGo, hrf]
    · cases hg : readFile g with
      | none => simp only [buildEntriesGo, hg]
      | some c =>
        simp only [buildEntriesGo, hg]
        rw [ih hft hrf]
        rfl

/-- Claim C8: a single unreadable input file aborts the whole full backup:
the exception propagates, the configuration (marker, history) is returned
untouched, and the trace holds no artifact write and no configuration
save. -/
theorem unreadable_input_aborts_backup (env : Env) (cfg : Config) (f : Path)
    (hmem : f ∈ (walkAll env.walk cfg.source_dirs).map FSFile.path)
    (hread : env.readFile f = none) :
    full_backup env cfg =
      (cfg, Outcome.raised,
        [Event.makedirs cfg.backup_dir,
         Event.zipOpen (tempName (archiveNameFull env cfg))]) ∧
    (∀ p, Event.fileWrite p ∉ (full_backup env cfg).2.2) ∧
    (∀ p, Event.configWrite p ∉ (full_backup env cfg).2.2) := by
  have hb : buildEntries env.readFile
      ((walkAll env.walk cfg.source_dirs).map FSFile.path) = none :=
    buildEntriesGo_eq_none env.readFile _ hmem hread
  have hfb : full_backup env cfg =
      (cfg, Outcome.raised,
        [Event.makedirs cfg.backup_dir,
         Event.zipOpen (tempName (archiveNameFull env cfg))]) := by
    simp only [full_backup, create_archive, hb]
  refine ⟨hfb, ?_, ?_⟩
  · intro p
    rw [hfb]
    simp
  · intro p
    rw [hfb]
    simp

/-- Witness for C8: the broken tree's only file cannot be opened, so the
full backup over it aborts without writing the artifact or the
configuration. -/
theorem unreadable_input_aborts_backup_witness :
    (["d", "ghost.txt"] : Path) ∈
      (walkAll brokenEnv.walk brokenCfg.source_dirs).map FSFile.path ∧
    brokenEnv.readFile ["d", "ghost.txt"] = none ∧
    full_backup brokenEnv brokenCfg =
      (brokenCfg, Outcome.raised,
        [Event.makedirs brokenCfg.backup_dir,
         Event.zipOpen (tempName (archiveNameFull brokenEnv brokenCfg))]) :=
  ⟨by decide, rfl,
    (unreadable_input_aborts_backup brokenEnv brokenCfg ["d", "ghost.txt"]
      (by decide) rfl).1⟩

theorem full_backup_spec (env : Env) (cfg : Config) :
    full_backup env cfg =
      (cfg, Outcome.raised,
        [Event.makedirs cfg.backup_dir,
         Event.zipOpen (tempName (archiveNameFull env cfg))])
  ∨ full_backup env cfg =
      ({ cfg with
          last_backup := some
            { type := "full", time := env.nowTime,
              files_count :=
                ((walkAll env.walk cfg.source_dirs).map FSFile.path).length },
          backup_history := cfg.backup_history ++
            [{ type := "full", time := env.nowLabel,
               path := archiveNameFull env cfg, files_count := none }] },
        Outcome.ok (some (archiveNameFull env cfg)),
        [Event.makedirs cfg.backup_dir,
         Event.zipOpen (tempName (archiveNameFull env cfg)),
         Event.encryptEv,
         Event.fileWrite (archiveNameFull env cfg),
         Event.remove (tempName (archiveNameFull env cfg)),
         Event.readClock env.nowTime,
         Event.configWrite configFilePath]) := by
  cases hb : buildEntries env.readFile
      ((walkAll env.walk cfg.source_dirs).map FSFile.path) with
  | none =>
    left
    simp only [full_backup, create_archive, hb]
  | some es =>
    right
    simp [full_backup, create_archive, hb, save_config]

theorem incremental_backup_spec (env : Env) (cfg : Config) :
    (cfg.last_backup = none ∧ incremental_backup env cfg = full_backup env cfg)
  ∨ ((incremental_backup env cfg).1 = cfg ∧
      (incremental_backup env cfg).2.1 = Outcome.raised)
  ∨ incremental_backup env cfg = (cfg, Outcome.ok none, [])
  ∨ ∃ (marker : Marker) (changed : List Path),
      cfg.last_backup = some marker ∧ changed ≠ [] ∧
      get_changed_files env cfg.source_dirs (some marker.time) =
        Except.ok changed ∧
      incremental_backup env cfg =
        ({ cfg with
            last_backup := some
              { type := "incremental", time := env.nowTime,
                files_count := changed.length },
            backup_history := cfg.backup_history ++
              [{ type := "incremental", time := env.nowLabel,
                 path := archiveNameInc env cfg,
                 files_count := some changed.length }] },
          Outcome.ok (some (archiveNameInc env cfg)),
          [Event.zipOpen (tempName (archiveNameInc env cfg)),
           Event.encryptEv,
           Event.fileWrite (archiveNameInc env cfg),
           Event.remove (tempName (archiveNameInc env cfg)),
           Event.readClock env.nowTime,
           Event.configWrite configFilePath]) := by
  cases hlb : cfg.last_backup with
  | none =>
    left
    refine ⟨rfl, ?_⟩
    simp only [incremental_backup, hlb]
  | some marker =>
    cases hgc : get_changed_files env cfg.source_dirs (some marker.time) with
    | error e =>
      right; left
      constructor <;> simp only [incremental_backup, hlb, hgc]
    | ok changed =>
      cases changed with
      | nil =>
        right; right; left
        simp only [incremental_backup, hlb, hgc]
      | cons f fs =>
        cases hb : buildEntries env.readFile (f :: fs) with
        | none =>
          right; left
          constructor <;>
            simp only [incremental_backup, create_archive, hlb, hgc, hb]
        | some es =>
          right; right; right
          refine ⟨marker, f :: fs, rfl, by simp, hgc, ?_⟩
          simp [incremental_backup, create_archive, hlb, hgc, hb, save_config]

/-- Claim C9: backup_history is append-only — each backup operation either
leaves the history untouched or appends exactly one entry at the end, and
a run that completes (is not raised and, for incremental, not the
no-changes path) appends exactly one entry. -/
theorem backup_history_append_only (env : Env) (cfg : Config) :
    ((full_backup env cfg).1.backup_history = cfg.backup_history ∨
      ∃ e, (full_backup env cfg).1.backup_history =
        cfg.backup_history ++ [e]) ∧
    ((incremental_backup env cfg).1.backup_history = cfg.backup_history ∨
      ∃ e, (incremental_backup env cfg).1.backup_history =
        cfg.backup_history ++ [e]) ∧
    ((full_backup env cfg).2.1 = Outcome.raised ∨
      ∃ e, (full_backup env cfg).1.backup_history =
        cfg.backup_history ++ [e]) ∧
    ((incremental_backup env cfg).2.1 = Outcome.raised ∨
      (incremental_backup env cfg).2.1 = Outcome.ok none ∨
      ∃ e, (incremental_backup env cfg).1.backup_history =
        cfg.backup_history ++ [e]) := by
  have hfull :
      ((full_backup env cfg).1.backup_history = cfg.backup_history ∨
        ∃ e, (full_backup env cfg).1.backup_history =
          cfg.backup_history ++ [e]) ∧
      ((full_backup env cfg).2.1 = Outcome.raised ∨
        ∃ e, (full_backup env cfg).1.backup_history =
          cfg.backup_history ++ [e]) := by
    rcases full_backup_spec env cfg with hf | hf
    · rw [hf]; exact ⟨Or.inl rfl, Or.inl rfl⟩
    · rw [hf]; exact ⟨Or.inr ⟨_, rfl⟩, Or.inr ⟨_, rfl⟩⟩
  have hinc :
      ((incremental_backup env cfg).1.backup_history = cfg.backup_history ∨
        ∃ e, (incremental_backup env cfg).1.backup_history =
          cfg.backup_history ++ [e]) ∧
      ((incremental_backup env cfg).2.1 = Outcome.raised ∨
        (incremental_backup env cfg).2.1 = Outcome.ok none ∨
        ∃ e, (incremental_backup env cfg).1.backup_history =
          cfg.backup_history ++ [e]) := by
    rcases incremental_backup_spec env cfg with ⟨-, hi⟩ | ⟨h1, h2⟩ | hi |
      ⟨mk, ch, -, -, -, hi⟩
    · rw [hi]
      rcases full_backup_spec env cfg with hf | hf
      · rw [hf]; exact ⟨Or.inl rfl, Or.inl rfl⟩
      · rw [hf]; exact ⟨Or.inr ⟨_, rfl⟩, Or.inr (Or.inr ⟨_, rfl⟩)⟩
    · exact ⟨Or.inl (by rw [h1]), Or.inl h2⟩
    · rw [hi]; exact ⟨Or.inl rfl, Or.inr (Or.inl rfl)⟩
    · rw [hi]; exact ⟨Or.inr ⟨_, rfl⟩, Or.inr (Or.inr ⟨_, rfl⟩)⟩
  exact ⟨hfull.1, hinc.1, hfull.2, hinc.2⟩

/-- Claim C10: on every completed backup the marker timestamp is the clock
value read after archiving and encryption (the trace reads the clock once,
strictly after the encryption and artifact-write events), and any file
whose modification time is not strictly greater than that stored timestamp
is excluded from the next change detection. -/
theorem marker_time_sampled_after_archive (env : Env) (cfg : Config) :
    ((full_backup env cfg).2.1 = Outcome.raised ∨
      ∃ n pre post,
        (full_backup env cfg).1.last_backup =
          some { type := "full", time := env.nowTime, files_count := n } ∧
        (full_backup env cfg).2.2 =
          pre ++ Event.readClock env.nowTime :: post ∧
        Event.encryptEv ∈ pre ∧
        Event.fileWrite (archiveNameFull env cfg) ∈ pre ∧
        ∀ t, Event.readClock t ∉ pre) ∧
    (cfg.last_backup = none ∨
      (incremental_backup env cfg).2.1 = Outcome.raised ∨
      (incremental_backup env cfg).2.1 = Outcome.ok none ∨
      ∃ n pre post,
        (incremental_backup env cfg).1.last_backup =
          some { type := "incremental", time := env.nowTime,
                 files_count := n } ∧
        (incremental_backup env cfg).2.2 =
          pre ++ Event.readClock env.nowTime :: post ∧
        Event.encryptEv ∈ pre ∧
        Event.fileWrite (archiveNameInc env cfg) ∈ pre ∧
        ∀ t, Event.readClock t ∉ pre) ∧
    (∀ (T : Int) (fs : List FSFile) (r : List Path) (g : FSFile) (m : Int),
      changedFilter (some T) fs = Except.ok r → g ∈ fs →
      g.mtime = some m → m ≤ T → ((fs.map FSFile.path).Nodup) →
      g.path ∉ r) := by
  refine ⟨?_, ?_, ?_⟩
  · rcases full_backup_spec env cfg with hf | hf
    · left; rw [hf]
    · right
      refine ⟨((walkAll env.walk cfg.source_dirs).map FSFile.path).length,
        [Event.makedirs cfg.backup_dir,
        Event.zipOpen (tempName (archiveNameFull env cfg)),
        Event.encryptEv,
        Event.fileWrite (archiveNameFull env cfg),
        Event.remove (tempName (archiveNameFull env cfg))],
        [Event.configWrite configFilePath], ?_, ?_, ?_, ?_, ?_⟩
      · rw [hf]
      · rw [hf]; rfl
      · simp
      · simp
      · intro t; simp
  · rcases incremental_backup_spec env cfg with ⟨h0, -⟩ | ⟨-, h2⟩ | hi |
      ⟨mk, ch, -, -, -, hi⟩
    · exact Or.inl h0
    · exact Or.inr (Or.inl h2)
    · right; right; left; rw [hi]
    · right; right; right
      refine ⟨ch.length, [Event.zipOpen (tempName (archiveNameInc env cfg)),
        Event.encryptEv,
        Event.fileWrite (archiveNameInc env cfg),
        Event.remove (tempName (archiveNameInc env cfg))],
        [Event.configWrite configFilePath], ?_, ?_, ?_, ?_, ?_⟩
      · rw [hi]
      · rw [hi]; rfl
      · simp
      · simp
      · intro t; simp
  · intro T fs r g m hok hg hm hle hnd hmem
    have hr := changedFilter_ok_eq (some T) hok
    subst hr
    simp only [List.mem_map, List.mem_filter] at hmem
    obtain ⟨g1, ⟨hg1, hch⟩, hgp⟩ := hmem
    have hgg : g1 = g := List.inj_on_of_nodup_map hnd hg1 hg hgp
    rw [hgg, hm] at hch
    have : T < m := by simpa [isChangedOpt, isChanged] using hch
    omega

/-- Witness for C10: instantiating the exclusion consequent at the test
fixture with the marker time 150 and the file stamped 10 — the next change
detection leaves it out. -/
theorem marker_time_sampled_after_archive_witness :
    ({ path := ["katyrov", "a.txt"], mtime := some 10 } : FSFile).path ∉
      (["katyrov", "b.txt"] :: ([] : List Path)) :=
  (marker_time_sampled_after_archive testEnv testCfgMarker).2.2
    100 (walkAll testEnv.walk [["katyrov"]]) [["katyrov", "b.txt"]]
    { path := ["katyrov", "a.txt"], mtime := some 10 } 10
    rfl (by decide) rfl (by decide) (by decide)

end BackupSystem
